import Mathlib

/-!
Shallow embedding of `infinibatch/common/chunked_dataset.py`.

The module under verification defines three generator functions and a facade
class:

* `chunked_data_generator(chunk_file_paths, shuffle_chunks)` — copies the path
  list, optionally shuffles the copy in place, then reads each chunk file and
  yields its decoded lines one by one;
* `buffered_shuffle_generator(data, buffer_size)` — a streaming approximate
  shuffle over a fixed array of `buffer_size` slots initialised to `None`,
  followed by a flush of the shuffled buffer;
* `transform_generator(data, transform)` — applies an optional unary function
  item by item;
* `class ChunkedDataset` — scans a directory for `*.gz` regular files, sorts
  the joined paths, stores the configuration, and composes the three
  generators in `__iter__`.

Modelling conventions used throughout:

* A Python value flowing through the shuffle buffer is `Option α`: the Python
  constant `None` is `none`, and a genuine data item `x` is `some x`.  The
  buffer slots hold exactly such values (Python initialises them to `None`),
  so the code's conflation of "empty slot" with "item `None`" is preserved.
* Randomness is an explicit oracle.  `random.randrange(0, len(buffer))` is
  modelled by drawing `rand t` from an entropy stream `rand : Nat → Nat` at
  step `t` and reducing it into range with `% len(buffer)`, which is exactly
  the range `randrange` guarantees.  `random.shuffle` is modelled by an
  oracle function on lists; theorems that depend on it being a permutation
  take that as a hypothesis.
* Raising `ValueError` is modelled by `Except PyError`; a generator that
  raises before yielding anything is `Except.error`.
* File-system reads (`os.scandir`, `gzip.open` + `read` + `decode` +
  `splitlines`) are modelled by explicit inputs: a list of directory entries
  and a function from a chunk file path to its decoded list of lines.
* Python's in-place mutation is made observable where a claim needs it:
  `chunked_data_generator` also returns the post-call value of the caller's
  list object (unchanged, because the source calls `.copy()` before
  `random.shuffle`).
-/

/-- The one error the module can raise itself: `raise ValueError`. -/
inductive PyError where
  | valueError

/-- Lexicographic comparison of character lists by code point, the order
Python uses to compare `str` values (`list.sort` on paths). -/
def charListLe : List Char → List Char → Bool
  | [], _ => true
  | _ :: _, [] => false
  | a :: as, b :: bs => if a < b then true else if a = b then charListLe as bs else false

/-- Python `s <= t` on strings: code-point lexicographic order. -/
def pyStrLe (s t : String) : Bool := charListLe s.data t.data

/-- Python `s.endswith(post)`: suffix test on code points. -/
def pyEndsWith (s post : String) : Bool := List.isSuffixOf post.data s.data

/-- Python `os.path.join(a, b)` for a relative component `b`. -/
def os_path_join (a b : String) : String := a ++ "/" ++ b

/-- One `os.scandir` entry: its `name` and the result of `is_file()`. -/
structure DirEntry where
  name : String
  is_file : Bool

/-- Model of `chunked_data_generator(chunk_file_paths, shuffle_chunks)`.

`readLines path` models `gzip.open(path).read().decode('utf-8').splitlines()`.
`shuffleOracle` models `random.shuffle` on the path list.

Returns the yielded items together with the post-call value of the caller's
list object: the source rebinds `chunk_file_paths = chunk_file_paths.copy()`
before shuffling, so the in-place `random.shuffle` acts on the copy and the
caller's object keeps its original contents. -/
def chunked_data_generator (readLines : String → List String)
    (chunk_file_paths : List String) (shuffle_chunks : Bool)
    (shuffleOracle : List String → List String) : List String × List String :=
  let localPaths := chunk_file_paths
  let localPaths := if shuffle_chunks then shuffleOracle localPaths else localPaths
  (localPaths.flatMap readLines, chunk_file_paths)

/-- The `for item in data` loop of `buffered_shuffle_generator`: at step `t`
the slot index is `rand t % len(buffer)` (the value `random.randrange(0,
len(buffer))` returns); if `buffer[index] is not None` the old slot value is
yielded, and in either case the slot is overwritten with the incoming Python
value.  Returns the yielded values and the final buffer. -/
def fillPhase {α : Type} (rand : Nat → Nat) :
    Nat → List (Option α) → List (Option α) → List (Option α) × List (Option α)
  | _, buffer, [] => ([], buffer)
  | t, buffer, item :: rest =>
      let index := rand t % buffer.length
      let slot := buffer.getD index none
      let r := fillPhase rand (t + 1) (buffer.set index item) rest
      (if slot.isSome then slot :: r.1 else r.1, r.2)

/-- Model of `buffered_shuffle_generator(data, buffer_size)`.

Raises `ValueError` when `buffer_size <= 0`; otherwise allocates
`buffer = [None] * buffer_size`, runs the fill loop, then flushes:
`random.shuffle(buffer)` (the oracle `shuffleOracle`) followed by yielding
every entry that `is not None`. -/
def buffered_shuffle_generator {α : Type} (data : List (Option α)) (buffer_size : Int)
    (rand : Nat → Nat) (shuffleOracle : List (Option α) → List (Option α)) :
    Except PyError (List (Option α)) :=
  if buffer_size ≤ 0 then .error .valueError
  else
    let buffer : List (Option α) := List.replicate buffer_size.toNat none
    let r := fillPhase rand 0 buffer data
    .ok (r.1 ++ (shuffleOracle r.2).filter (fun s => s.isSome))

/-- Fill/swap phase as worded by the spec, over genuine items: for each
incoming item, pick the slot index; if the slot currently holds an item, emit
it and then overwrite the slot with the new incoming item; if the slot is
empty, store the new item there without emitting anything. -/
def spec_fill {α : Type} (rand : Nat → Nat) :
    Nat → List (Option α) → List α → List α × List (Option α)
  | _, slots, [] => ([], slots)
  | t, slots, item :: rest =>
      let index := rand t % slots.length
      match slots.getD index none with
      | some occupant =>
          let r := spec_fill rand (t + 1) (slots.set index (some item)) rest
          (occupant :: r.1, r.2)
      | none =>
          let r := spec_fill rand (t + 1) (slots.set index (some item)) rest
          r

/-- The Shuffle Buffer contract as worded by the spec: fail with
invalid-argument if `buffer_size ≤ 0`; otherwise run the fill/swap phase and
then the drain phase — apply a permutation to the remaining slots (including
empties) and emit every non-empty slot's item in that permuted order. -/
def shuffle_buffer_spec {α : Type} (data : List α) (buffer_size : Int)
    (rand : Nat → Nat) (shuffleOracle : List (Option α) → List (Option α)) :
    Except PyError (List α) :=
  if buffer_size ≤ 0 then .error .valueError
  else
    let slots : List (Option α) := List.replicate buffer_size.toNat none
    let r := spec_fill rand 0 slots data
    .ok (r.1 ++ (shuffleOracle r.2).reduceOption)

/-- The `for item in data: yield transform(item)` loop. -/
def applyAll {α β : Type} (f : α → β) : List α → List β
  | [] => []
  | x :: xs => f x :: applyAll f xs

/-- Model of `transform_generator(data, transform)`: apply the function item by item
when one is given (`if transform:`), otherwise yield the items unchanged. -/
def transform_generator {α : Type} (data : List α) (transform : Option (α → α)) : List α :=
  match transform with
  | some f => applyAll f data
  | none => data

/-- The state of a `ChunkedDataset` instance after `__init__`. -/
structure ChunkedDataset where
  chunk_file_paths : List String
  shuffle : Bool
  buffer_size : Int
  transform : Option (String → String)

/-- Model of `ChunkedDataset.__init__(path, shuffle, buffer_size, transform)` (Python
defaults: `shuffle=True`, `buffer_size=1024`, `transform=None`): collect
`os.path.join(path, e.name)` for every scanned entry `e` that is a regular
file whose name ends with `.gz`, then sort the list (Python `list.sort`:
stable, lexicographic on strings — modelled by a stable insertion sort under
`pyStrLe`). -/
def ChunkedDataset.init (path : String) (entries : List DirEntry)
    (shuffle : Bool) (buffer_size : Int) (transform : Option (String → String)) :
    ChunkedDataset :=
  let found := (entries.filter (fun e => e.is_file && pyEndsWith e.name ".gz")).map
      (fun e => os_path_join path e.name)
  { chunk_file_paths := List.insertionSort (fun a b => pyStrLe a b = true) found
    shuffle := shuffle
    buffer_size := buffer_size
    transform := transform }

/-- Model of `ChunkedDataset.__iter__` run to exhaustion, threading the post-call
value of `self.chunk_file_paths` through `chunked_data_generator` (second
component).  When `self.shuffle` is set, the chunk stream is piped through
`buffered_shuffle_generator`; the strings flowing out of it are represented
as Python values `some s` and converted back with `reduceOption` before the
transform stage (`none` never flows out; proved below). -/
def ChunkedDataset.iterWithState (d : ChunkedDataset)
    (readLines : String → List String)
    (chunkShuffleOracle : List String → List String)
    (rand : Nat → Nat)
    (bufShuffleOracle : List (Option String) → List (Option String)) :
    Except PyError (List String) × List String :=
  let g := chunked_data_generator readLines d.chunk_file_paths d.shuffle chunkShuffleOracle
  let out :=
    if d.shuffle then
      (buffered_shuffle_generator (g.1.map some) d.buffer_size rand bufShuffleOracle).map
        (fun l => transform_generator l.reduceOption d.transform)
    else
      .ok (transform_generator g.1 d.transform)
  (out, g.2)

/-- One complete pass over `iter(dataset)`: the items it yields, or the
error it raises before yielding anything. -/
def ChunkedDataset.iterPass (d : ChunkedDataset)
    (readLines : String → List String)
    (chunkShuffleOracle : List String → List String)
    (rand : Nat → Nat)
    (bufShuffleOracle : List (Option String) → List (Option String)) :
    Except PyError (List String) :=
  (d.iterWithState readLines chunkShuffleOracle rand bufShuffleOracle).1

/-! ## Helper lemmas about the fill phase and the drain phase -/

/-- Number of occurrences of `a` in a list (self-contained counting function
used for the conservation arguments below). -/
def countOcc {α : Type} [DecidableEq α] (a : α) : List α → Nat
  | [] => 0
  | x :: xs => (if x = a then 1 else 0) + countOcc a xs

theorem countOcc_append {α : Type} [DecidableEq α] (a : α) (l1 l2 : List α) :
    countOcc a (l1 ++ l2) = countOcc a l1 + countOcc a l2 := by
  induction l1 with
  | nil => simp [countOcc]
  | cons x xs ih => simp [countOcc, ih]; omega

theorem countOcc_eq_count {α : Type} [DecidableEq α] (a : α) (l : List α) :
    countOcc a l = List.count a l := by
  induction l with
  | nil => simp [countOcc]
  | cons x xs ih =>
      simp only [countOcc, List.count_cons, ih, beq_iff_eq]
      omega

theorem countOcc_of_perm {α : Type} [DecidableEq α] {l1 l2 : List α}
    (h : List.Perm l1 l2) (a : α) : countOcc a l1 = countOcc a l2 := by
  induction h with
  | nil => rfl
  | cons x _ ih => simp [countOcc, ih]
  | swap x y l => simp [countOcc]; omega
  | trans _ _ ih1 ih2 => exact ih1.trans ih2

theorem perm_of_countOcc {α : Type} [DecidableEq α] {l1 l2 : List α}
    (h : ∀ a, countOcc a l1 = countOcc a l2) : List.Perm l1 l2 := by
  rw [List.perm_iff_count]
  intro a
  rw [← countOcc_eq_count a l1, ← countOcc_eq_count a l2]
  exact h a

theorem countOcc_eq_zero_of_not_mem {α : Type} [DecidableEq α] {a : α} {l : List α}
    (h : a ∉ l) : countOcc a l = 0 := by
  induction l with
  | nil => rfl
  | cons x xs ih =>
      simp only [List.mem_cons, not_or] at h
      simp only [countOcc, ih h.2]
      rw [if_neg (fun hc : x = a => h.1 hc.symm)]

/-- The fill loop never yields the Python value `None`: a yield happens only
under the guard `buffer[index] is not None`. -/
theorem fillPhase_none_not_mem {α : Type} (rand : Nat → Nat) (data : List (Option α)) :
    ∀ (t : Nat) (buffer : List (Option α)), none ∉ (fillPhase rand t buffer data).1 := by
  induction data with
  | nil => intro t buffer; simp [fillPhase]
  | cons item rest ih =>
      intro t buffer
      simp only [fillPhase]
      cases h : buffer.getD (rand t % buffer.length) none with
      | none => simpa using ih (t + 1) _
      | some x =>
          simp only [Option.isSome_some, if_true, List.mem_cons, not_or]
          exact ⟨by simp, ih (t + 1) _⟩

/-- Overwriting one position exchanges one occurrence, subtraction-free form:
occurrences after `set` plus the occurrence of the old entry equal
occurrences before plus the occurrence of the new entry. -/
theorem countOcc_set {α : Type} [DecidableEq α] (l : List α) :
    ∀ (i : Nat) (a b : α), i < l.length →
      countOcc b (l.set i a) + (if l.getD i a = b then 1 else 0)
        = countOcc b l + (if a = b then 1 else 0) := by
  induction l with
  | nil => intro i a b h; simp at h
  | cons x xs ih =>
      intro i a b h
      cases i with
      | zero =>
          simp only [List.set_cons_zero, countOcc, List.getD_cons_zero]
          omega
      | succ n =>
          have hn : n < xs.length := by simpa using h
          have hrec := ih n a b hn
          simp only [List.set_cons_succ, countOcc, List.getD_cons_succ]
          omega

/-- Conservation of every genuine value through the fill loop: occurrences of
`some v` among (yields, final buffer) match occurrences among (input,
initial buffer).  Needs a non-empty buffer so the drawn index is in range. -/
theorem fillPhase_countOcc {α : Type} [DecidableEq (Option α)]
    (rand : Nat → Nat) (v : α) (data : List (Option α)) :
    ∀ (t : Nat) (buffer : List (Option α)), buffer ≠ [] →
      countOcc (some v) (fillPhase rand t buffer data).1 +
        countOcc (some v) (fillPhase rand t buffer data).2
        = countOcc (some v) data + countOcc (some v) buffer := by
  induction data with
  | nil => intro t buffer _; simp [fillPhase, countOcc]
  | cons item rest ih =>
      intro t buffer hb
      have hlen : 0 < buffer.length := List.length_pos.mpr hb
      have hidx : rand t % buffer.length < buffer.length := Nat.mod_lt _ hlen
      have hset : buffer.set (rand t % buffer.length) item ≠ [] := by
        have hls := List.length_set buffer (rand t % buffer.length) item
        intro hc
        rw [hc] at hls
        simp only [List.length_nil] at hls
        omega
      have hgetd : buffer.getD (rand t % buffer.length) none
          = buffer[rand t % buffer.length] := List.getD_eq_getElem buffer none hidx
      have hgetd' : buffer.getD (rand t % buffer.length) item
          = buffer[rand t % buffer.length] := List.getD_eq_getElem buffer item hidx
      have hcs := countOcc_set buffer (rand t % buffer.length) item (some v) hidx
      rw [hgetd'] at hcs
      have ihs := ih (t + 1) (buffer.set (rand t % buffer.length) item) hset
      simp only [fillPhase, hgetd, countOcc]
      cases h : buffer[rand t % buffer.length] with
      | none =>
          rw [h] at hcs
          rw [if_neg (fun hc => Option.noConfusion hc)] at hcs
          simp only [Option.isSome_none, Bool.false_eq_true, if_false]
          omega
      | some x =>
          rw [h] at hcs
          simp only [Option.isSome_some, if_true, countOcc]
          omega

/-- Keeping the entries that `is not None` does not change the occurrence
counts of genuine values. -/
theorem countOcc_filter_isSome {α : Type} [DecidableEq (Option α)]
    (v : α) (l : List (Option α)) :
    countOcc (some v) (l.filter (fun o => o.isSome)) = countOcc (some v) l := by
  induction l with
  | nil => rfl
  | cons x xs ih =>
      cases x with
      | none =>
          simp only [List.filter_cons, Option.isSome_none, Bool.false_eq_true, if_false, ih,
            countOcc]
          rw [if_neg (fun hc : (none : Option α) = some v => Option.noConfusion hc)]
          omega
      | some y =>
          simp only [List.filter_cons, Option.isSome_some, if_true, countOcc, ih]

/-- The value `None` never survives the `is not None` filter. -/
theorem none_not_mem_filter_isSome {α : Type} (l : List (Option α)) :
    none ∉ l.filter (fun o => o.isSome) := by
  intro h
  have := List.of_mem_filter h
  simp at this

/-- No genuine value occurs in the all-`None` initial buffer. -/
theorem countOcc_replicate_none {α : Type} [DecidableEq (Option α)] (v : α) (n : Nat) :
    countOcc (some v) (List.replicate n (none : Option α)) = 0 := by
  induction n with
  | zero => rfl
  | succ m ih =>
      simp only [List.replicate_succ, countOcc, ih]
      rw [if_neg (fun hc => Option.noConfusion hc)]

/-- Core behaviour of `buffered_shuffle_generator` on a positive buffer size,
for any permutation oracle for `random.shuffle`: it succeeds, never emits
`None`, and emits exactly the non-`None` input values (as a multiset). -/
theorem buffered_shuffle_generator_ok {α : Type} [DecidableEq α]
    (data : List (Option α)) (bs : Int)
    (rand : Nat → Nat) (sh : List (Option α) → List (Option α))
    (h1 : 1 ≤ bs) (hsh : ∀ l, List.Perm (sh l) l) :
    buffered_shuffle_generator data bs rand sh
        = .ok ((fillPhase rand 0 (List.replicate bs.toNat none) data).1 ++
            (sh (fillPhase rand 0 (List.replicate bs.toNat none) data).2).filter
              (fun s => s.isSome)) ∧
      none ∉ ((fillPhase rand 0 (List.replicate bs.toNat none) data).1 ++
            (sh (fillPhase rand 0 (List.replicate bs.toNat none) data).2).filter
              (fun s => s.isSome)) ∧
      List.Perm ((fillPhase rand 0 (List.replicate bs.toNat none) data).1 ++
            (sh (fillPhase rand 0 (List.replicate bs.toNat none) data).2).filter
              (fun s => s.isSome))
        (data.filter (fun o => o.isSome)) := by
  have hnot : ¬ bs ≤ 0 := by omega
  have hn : 0 < bs.toNat := by omega
  have hb0 : (List.replicate bs.toNat (none : Option α)) ≠ [] := by
    have hl : (List.replicate bs.toNat (none : Option α)).length = bs.toNat := by simp
    intro hc
    rw [hc] at hl
    simp only [List.length_nil] at hl
    omega
  have hmemout : none ∉ ((fillPhase rand 0 (List.replicate bs.toNat none) data).1 ++
      (sh (fillPhase rand 0 (List.replicate bs.toNat none) data).2).filter
        (fun s => s.isSome)) := by
    intro hmem
    rcases List.mem_append.mp hmem with h | h
    · exact fillPhase_none_not_mem rand data 0 _ h
    · exact none_not_mem_filter_isSome _ h
  refine ⟨by simp only [buffered_shuffle_generator, if_neg hnot], hmemout, ?_⟩
  apply perm_of_countOcc
  intro a
  cases a with
  | none =>
      rw [countOcc_eq_zero_of_not_mem hmemout,
        countOcc_eq_zero_of_not_mem (none_not_mem_filter_isSome data)]
  | some v =>
      rw [countOcc_append, countOcc_filter_isSome,
        countOcc_of_perm (hsh _) (some v), countOcc_filter_isSome,
        fillPhase_countOcc rand v data 0 _ hb0, countOcc_replicate_none, Nat.add_zero]

/-- With a single slot the fill loop is fully determined: every draw picks
slot 0, so the yields are the non-`None` values among the initial slot and
all inputs but the last, and the final buffer holds the last value fed in
(the initial slot value when there is no input). -/
theorem fillPhase_singleton {α : Type} (rand : Nat → Nat) :
    ∀ (l : List (Option α)) (t : Nat) (s : Option α),
      fillPhase rand t [s] l
        = ((s :: l).dropLast.filter (fun o => o.isSome),
           [(s :: l).getLast (List.cons_ne_nil s l)]) := by
  intro l
  induction l with
  | nil => intro t s; simp [fillPhase]
  | cons d ds ih =>
      intro t s
      have hr := ih (t + 1) d
      simp only [fillPhase, List.length_cons, List.length_nil, Nat.zero_add, Nat.mod_one,
        List.getD_cons_zero, List.set_cons_zero, hr]
      rw [List.dropLast_cons₂, List.filter_cons]
      rw [List.getLast_cons (List.cons_ne_nil d ds)]

/-- The `is not None` filter on Python values is `reduceOption` followed by
re-tagging with `some`. -/
theorem filter_isSome_eq_map_some_reduceOption {α : Type} (l : List (Option α)) :
    l.filter (fun o => o.isSome) = (l.reduceOption).map some := by
  induction l with
  | nil => rfl
  | cons x xs ih => cases x <;> simp [List.filter_cons, List.reduceOption, ih]

/-- The code's fill loop over Python values agrees step by step with the
spec's fill/swap phase over items: same slot evolution, and the code's
yields are the spec's emissions tagged with `some`. -/
theorem fillPhase_map_some {α : Type} (rand : Nat → Nat) :
    ∀ (data : List α) (t : Nat) (buffer : List (Option α)),
      fillPhase rand t buffer (data.map some)
        = ((spec_fill rand t buffer data).1.map some, (spec_fill rand t buffer data).2) := by
  intro data
  induction data with
  | nil => intro t buffer; simp [fillPhase, spec_fill]
  | cons a rest ih =>
      intro t buffer
      simp only [List.map_cons, fillPhase, spec_fill]
      cases h : buffer.getD (rand t % buffer.length) none with
      | none => simpa using ih (t + 1) (buffer.set (rand t % buffer.length) (some a))
      | some x =>
          simp only [Option.isSome_some, if_true, ih (t + 1) _, List.map_cons]

/-- The transform loop is exactly `List.map`. -/
theorem applyAll_eq_map {α β : Type} (f : α → β) (l : List α) :
    applyAll f l = l.map f := by
  induction l with
  | nil => rfl
  | cons x xs ih => simp [applyAll, ih]

/-! ## The lexicographic path order -/

theorem charListLe_total : ∀ (a b : List Char),
    charListLe a b = true ∨ charListLe b a = true := by
  intro a
  induction a with
  | nil => intro b; left; rfl
  | cons x xs ih =>
      intro b
      cases b with
      | nil => right; rfl
      | cons y ys =>
          rcases lt_trichotomy x y with h | h | h
          · left; simp [charListLe, h]
          · subst h
            rcases ih ys with h2 | h2
            · left; simp [charListLe, h2]
            · right; simp [charListLe, h2]
          · right; simp [charListLe, h]

theorem charListLe_trans : ∀ (a b c : List Char),
    charListLe a b = true → charListLe b c = true → charListLe a c = true := by
  intro a
  induction a with
  | nil => intro b c _ _; rfl
  | cons x xs ih =>
      intro b c hab hbc
      cases b with
      | nil => simp [charListLe] at hab
      | cons y ys =>
          cases c with
          | nil => simp [charListLe] at hbc
          | cons z zs =>
              simp only [charListLe] at hab hbc ⊢
              by_cases hxy : x < y
              · by_cases hyz : y < z
                · have hxz : x < z := lt_trans hxy hyz
                  simp [hxz]
                · by_cases hyz2 : y = z
                  · subst hyz2; simp [hxy]
                  · simp [hyz, hyz2] at hbc
              · by_cases hxy2 : x = y
                · subst hxy2
                  simp only [lt_self_iff_false, if_false, if_pos rfl] at hab
                  by_cases hxz : x < z
                  · simp [hxz]
                  · by_cases hxz2 : x = z
                    · subst hxz2
                      simp only [lt_self_iff_false, if_false, if_pos rfl] at hbc ⊢
                      exact ih ys zs hab hbc
                    · simp [hxz, hxz2] at hbc
                · simp [hxy, hxy2] at hab

instance : IsTrans String (fun a b => pyStrLe a b = true) :=
  ⟨fun a b c hab hbc => charListLe_trans a.data b.data c.data hab hbc⟩

instance : IsTotal String (fun a b => pyStrLe a b = true) :=
  ⟨fun a b => charListLe_total a.data b.data⟩

/-- Tagging genuine items as Python values leaves nothing for the
`is not None` filter to drop. -/
theorem filter_isSome_map_some {α : Type} (l : List α) :
    (l.map some).filter (fun o => o.isSome) = l.map some := by
  induction l with
  | nil => rfl
  | cons x xs ih => simp [List.filter_cons, ih]

/-! ## Claims -/

/-- C1: for any finite input sequence and any buffer_size ≥ 1 (and any
permutation oracle for the final `random.shuffle`), the sequence emitted by
`buffered_shuffle_generator` is a permutation of the input sequence — same
multiset, no loss, no duplication, no fabrication — and in particular the
output length equals the input length. -/
theorem C1_shuffle_buffer_preserves_multiset {α : Type} [DecidableEq α]
    (data : List α) (buffer_size : Int) (rand : Nat → Nat)
    (sh : List (Option α) → List (Option α))
    (hbs : 1 ≤ buffer_size) (hsh : ∀ l, List.Perm (sh l) l) :
    ∃ out, buffered_shuffle_generator (data.map some) buffer_size rand sh = .ok out ∧
      List.Perm out (data.map some) ∧ out.length = data.length := by
  obtain ⟨heq, _, hperm⟩ :=
    buffered_shuffle_generator_ok (data.map some) buffer_size rand sh hbs hsh
  rw [filter_isSome_map_some] at hperm
  refine ⟨_, heq, hperm, ?_⟩
  have hl := hperm.length_eq
  simpa using hl

/-- C1 witness: a concrete run with three items and buffer size 2. -/
theorem C1_witness :
    ∃ out, buffered_shuffle_generator (([0, 1, 2] : List Nat).map some) 2 (fun t => t) id
        = .ok out ∧
      List.Perm out (([0, 1, 2] : List Nat).map some) ∧
      out.length = ([0, 1, 2] : List Nat).length :=
  C1_shuffle_buffer_preserves_multiset [0, 1, 2] 2 (fun t => t) id (by norm_num)
    (fun l => List.Perm.refl l)

/-- C2: for every input sequence, every buffer size, every sequence of slot
draws and every drain permutation oracle, `buffered_shuffle_generator` run on
the inputs as Python values coincides with the two-phase fill/swap + drain
algorithm worded by the spec (`shuffle_buffer_spec`), up to tagging the
emitted items as Python values. -/
theorem C2_shuffle_buffer_follows_two_phase_algorithm {α : Type}
    (data : List α) (buffer_size : Int) (rand : Nat → Nat)
    (sh : List (Option α) → List (Option α)) :
    buffered_shuffle_generator (data.map some) buffer_size rand sh
      = (shuffle_buffer_spec data buffer_size rand sh).map (List.map some) := by
  by_cases h : buffer_size ≤ 0
  · simp [buffered_shuffle_generator, shuffle_buffer_spec, h, Except.map]
  · simp only [buffered_shuffle_generator, shuffle_buffer_spec, if_neg h]
    rw [fillPhase_map_some]
    simp only [Except.map]
    rw [filter_isSome_eq_map_some_reduceOption, List.map_append]

/-- C3: for every buffer_size ≤ 0 `buffered_shuffle_generator` raises
`ValueError` before emitting anything, and for every buffer_size ≥ 1 that
error is never raised (the run yields a result list). -/
theorem C3_shuffle_buffer_rejects_nonpositive_buffer_size {α : Type}
    (data : List (Option α)) (buffer_size : Int) (rand : Nat → Nat)
    (sh : List (Option α) → List (Option α)) :
    (buffer_size ≤ 0 →
      buffered_shuffle_generator data buffer_size rand sh = .error .valueError) ∧
    (1 ≤ buffer_size →
      ∃ out, buffered_shuffle_generator data buffer_size rand sh = .ok out) := by
  constructor
  · intro h
    simp [buffered_shuffle_generator, h]
  · intro h
    refine ⟨(fillPhase rand 0 (List.replicate buffer_size.toNat none) data).1 ++
        (sh (fillPhase rand 0 (List.replicate buffer_size.toNat none) data).2).filter
          (fun s => s.isSome), ?_⟩
    simp only [buffered_shuffle_generator, if_neg (show ¬ buffer_size ≤ 0 by omega)]

/-- C3 witness: buffer size -1 raises, buffer size 1 does not. -/
theorem C3_witness :
    buffered_shuffle_generator [some 5] (-1) (fun _ => 0) id = .error .valueError ∧
    ∃ out, buffered_shuffle_generator [some 5] 1 (fun _ => 0) id = .ok out :=
  ⟨(C3_shuffle_buffer_rejects_nonpositive_buffer_size [some 5] (-1) (fun _ => 0) id).1
      (by norm_num),
   (C3_shuffle_buffer_rejects_nonpositive_buffer_size [some 5] 1 (fun _ => 0) id).2
      (by norm_num)⟩

/-- Taking `getLast` commutes with tagging items as Python values. -/
theorem getLast_map_some {α : Type} (l : List α) (h : l ≠ []) :
    (l.map some).getLast (by simp [h]) = some (l.getLast h) := by
  have h1 := List.getLast?_eq_getLast (l.map some) (by simp [h])
  have h2 := List.getLast?_eq_getLast l h
  have h3 : (l.map some).getLast? = Option.map some l.getLast? := List.getLast?_map some l
  rw [h1, h2] at h3
  simp only [Option.map_some'] at h3
  exact Option.some.inj h3

/-- C4: with buffer_size = 1 the shuffle buffer is a pure pass-through.  The
fill loop buffers the first item and lets each subsequent item evict exactly
the previous one (its yields are all items but the last, in order, and the
single slot ends up holding the last item), and the drain phase emits that
final item, so the output sequence equals the input sequence in order. -/
theorem C4_buffer_size_one_is_pass_through {α : Type} (items : List α)
    (rand : Nat → Nat) (sh : List (Option α) → List (Option α))
    (hsh : ∀ l, List.Perm (sh l) l) :
    fillPhase rand 0 [none] (items.map some)
        = ((items.dropLast).map some, [items.getLast?]) ∧
    buffered_shuffle_generator (items.map some) 1 rand sh = .ok (items.map some) := by
  have hfill : fillPhase rand 0 [none] (items.map some)
      = ((items.dropLast).map some, [items.getLast?]) := by
    rw [fillPhase_singleton]
    cases items with
    | nil => simp
    | cons a as =>
        have hmne : (a :: as).map some ≠ [] := by simp
        rw [Prod.mk.injEq]
        refine ⟨?_, ?_⟩
        · simp only [List.map_cons, List.dropLast_cons₂, List.filter_cons, Option.isSome_none,
            Bool.false_eq_true, if_false]
          rw [← List.map_cons, ← List.map_dropLast, filter_isSome_map_some]
        · rw [List.getLast_cons hmne, getLast_map_some (a :: as) (List.cons_ne_nil a as),
            List.getLast?_eq_getLast (a :: as) (List.cons_ne_nil a as)]
  refine ⟨hfill, ?_⟩
  have hone : ¬ (1 : Int) ≤ 0 := by norm_num
  simp only [buffered_shuffle_generator, if_neg hone, Int.toNat_one, List.replicate_one, hfill]
  have hs : sh [items.getLast?] = [items.getLast?] := List.perm_singleton.mp (hsh _)
  rw [hs]
  cases items with
  | nil => simp
  | cons a as =>
      rw [List.getLast?_eq_getLast (a :: as) (List.cons_ne_nil a as)]
      simp only [List.filter_cons, Option.isSome_some, if_true, List.filter_nil]
      have hjoin : ((a :: as).dropLast).map some ++ [some ((a :: as).getLast (List.cons_ne_nil a as))]
          = (((a :: as).dropLast) ++ [(a :: as).getLast (List.cons_ne_nil a as)]).map some := by
        simp [List.map_append]
      rw [hjoin, List.dropLast_append_getLast]

/-- C4 witness: a concrete three-item pass-through run. -/
theorem C4_witness :
    fillPhase (fun _ => 0) 0 [none] (([10, 20, 30] : List Nat).map some)
        = (([10, 20, 30] : List Nat).dropLast.map some, [([10, 20, 30] : List Nat).getLast?]) ∧
    buffered_shuffle_generator (([10, 20, 30] : List Nat).map some) 1 (fun _ => 0) id
        = .ok (([10, 20, 30] : List Nat).map some) :=
  C4_buffer_size_one_is_pass_through [10, 20, 30] (fun _ => 0) id (fun l => List.Perm.refl l)

/-- C9: `buffered_shuffle_generator` never emits the Python value `None` and
emits exactly the multiset of non-`None` input values: an input `None` is
indistinguishable from an empty slot and is silently dropped from the
output. -/
theorem C9_none_inputs_silently_dropped {α : Type} [DecidableEq α]
    (data : List (Option α)) (buffer_size : Int) (rand : Nat → Nat)
    (sh : List (Option α) → List (Option α))
    (hbs : 1 ≤ buffer_size) (hsh : ∀ l, List.Perm (sh l) l) :
    ∃ out, buffered_shuffle_generator data buffer_size rand sh = .ok out ∧
      none ∉ out ∧ List.Perm out (data.filter (fun o => o.isSome)) := by
  obtain ⟨heq, hnm, hperm⟩ :=
    buffered_shuffle_generator_ok data buffer_size rand sh hbs hsh
  exact ⟨_, heq, hnm, hperm⟩

/-- C9 witness: a run whose input contains `None`; the output is the two
genuine items only. -/
theorem C9_witness :
    ∃ out, buffered_shuffle_generator ([some 1, none, some 2] : List (Option Nat)) 1
        (fun _ => 0) id = .ok out ∧
      none ∉ out ∧
      List.Perm out (([some 1, none, some 2] : List (Option Nat)).filter
        (fun o => o.isSome)) :=
  C9_none_inputs_silently_dropped [some 1, none, some 2] 1 (fun _ => 0) id (by norm_num)
    (fun l => List.Perm.refl l)

/-- C7: `transform_generator` with a provided function yields exactly the
element-wise application of the function to the input, preserving length and
order; with no function provided it yields the input unchanged. -/
theorem C7_transform_generator_is_map_or_identity {α : Type} (data : List α) (f : α → α) :
    transform_generator data (some f) = data.map f ∧
    (transform_generator data (some f)).length = data.length ∧
    transform_generator data none = data := by
  refine ⟨applyAll_eq_map f data, ?_, rfl⟩
  rw [show transform_generator data (some f) = applyAll f data from rfl, applyAll_eq_map]
  exact List.length_map data f

/-- C6: at construction the chunk file set is exactly the scanned entries
that are regular files with names ending in `.gz` (joined to the directory
path), sorted lexicographically; all other entries are ignored. -/
theorem C6_init_collects_sorted_gz_files (path : String) (entries : List DirEntry)
    (shuffle : Bool) (buffer_size : Int) (transform : Option (String → String)) :
    List.Sorted (fun a b => pyStrLe a b = true)
        (ChunkedDataset.init path entries shuffle buffer_size transform).chunk_file_paths ∧
    List.Perm (ChunkedDataset.init path entries shuffle buffer_size transform).chunk_file_paths
      ((entries.filter (fun e => e.is_file && pyEndsWith e.name ".gz")).map
        (fun e => os_path_join path e.name)) ∧
    ∀ p, p ∈ (ChunkedDataset.init path entries shuffle buffer_size transform).chunk_file_paths ↔
      ∃ e, e ∈ entries ∧ e.is_file = true ∧ pyEndsWith e.name ".gz" = true ∧
        p = os_path_join path e.name := by
  refine ⟨List.sorted_insertionSort _ _, List.perm_insertionSort _ _, ?_⟩
  intro p
  simp only [ChunkedDataset.init]
  rw [List.Perm.mem_iff (List.perm_insertionSort _ _)]
  simp only [List.mem_map, List.mem_filter, Bool.and_eq_true]
  constructor
  · rintro ⟨e, ⟨he, hf, hgz⟩, hp⟩
    exact ⟨e, he, hf, hgz, hp.symm⟩
  · rintro ⟨e, he, hf, hgz, hp⟩
    exact ⟨e, ⟨he, hf, hgz⟩, hp.symm⟩

/-- C8: the chunk file set computed at construction is never mutated by a
pass: `chunked_data_generator` works on a copy of the path list, so after any
iteration (with either shuffle flag) the caller's list — and the dataset's
stored `chunk_file_paths` — is unchanged. -/
theorem C8_paths_unchanged_by_iteration (readLines : String → List String)
    (paths : List String) (flag : Bool) (o1 : List String → List String)
    (d : ChunkedDataset) (r : Nat → Nat)
    (o2 : List (Option String) → List (Option String)) :
    (chunked_data_generator readLines paths flag o1).2 = paths ∧
    (d.iterWithState readLines o1 r o2).2 = d.chunk_file_paths :=
  ⟨rfl, rfl⟩

/-- C10: with shuffle disabled, iteration never raises the buffer-size
`ValueError`, whatever the (possibly non-positive) buffer size: the check
sits inside `buffered_shuffle_generator`, which is composed into the pass
only when the shuffle flag is set. -/
theorem C10_no_buffer_size_check_when_shuffle_disabled (d : ChunkedDataset)
    (readLines : String → List String) (o1 : List String → List String)
    (r : Nat → Nat) (o2 : List (Option String) → List (Option String))
    (hs : d.shuffle = false) :
    ∃ out, d.iterPass readLines o1 r o2 = .ok out := by
  simp only [ChunkedDataset.iterPass, ChunkedDataset.iterWithState, hs, Bool.false_eq_true,
    if_false]
  exact ⟨_, rfl⟩

/-- C10 witness: a dataset with buffer_size = -7 and shuffle off iterates
without error. -/
theorem C10_witness :
    (-7 : Int) ≤ 0 ∧
    ∃ out, (ChunkedDataset.mk ["p"] false (-7) none).iterPass (fun _ => ["x"]) id
      (fun _ => 0) id = .ok out :=
  ⟨by norm_num,
   C10_no_buffer_size_check_when_shuffle_disabled (ChunkedDataset.mk ["p"] false (-7) none)
     (fun _ => ["x"]) id (fun _ => 0) id rfl⟩

/-- C5: with shuffle disabled, a pass yields the chunk files' contents in the
stored (lexicographically sorted) path order, each file's lines in file
order; the result does not depend on any randomness oracle, so repeated
passes are identical; and on the concrete two-chunk directory (`1.gz` holding
lines a, b and `2.gz` holding line c) the pass yields exactly a, b, c. -/
theorem C5_shuffle_disabled_yields_sorted_deterministic_order
    (path : String) (entries : List DirEntry) (buffer_size : Int)
    (readLines : String → List String)
    (o1 o1' : List String → List String) (r r' : Nat → Nat)
    (o2 o2' : List (Option String) → List (Option String)) :
    (ChunkedDataset.init path entries false buffer_size none).iterPass readLines o1 r o2
      = .ok (((ChunkedDataset.init path entries false buffer_size none).chunk_file_paths).flatMap
          readLines) ∧
    (ChunkedDataset.init path entries false buffer_size none).iterPass readLines o1 r o2
      = (ChunkedDataset.init path entries false buffer_size none).iterPass readLines o1' r' o2' ∧
    (ChunkedDataset.init "root" [⟨"2.gz", true⟩, ⟨"1.gz", true⟩, ⟨"notes.txt", true⟩]
        false 1024 none).iterPass
        (fun p => if p = "root/1.gz" then ["a", "b"]
          else if p = "root/2.gz" then ["c"] else []) o1 r o2
      = .ok ["a", "b", "c"] := by
  refine ⟨rfl, rfl, ?_⟩
  rfl
